import Mathlib

/-!
Verification of the `market_data_store.coordinator` backpressure subsystem.

This file gives a shallow embedding of the two source modules the claims
range over:

* `src/market_data_store/coordinator/queue.py` — `BoundedQueue`: a FIFO
  buffer with capacity, high/low watermarks, overflow strategies
  (`block`, `drop_oldest`, `error`) and watermark-crossing callbacks.
* `src/market_data_store/coordinator/feedback.py` — `BackpressureLevel`,
  `FeedbackEvent` (with its `utilization` property) and `FeedbackBus`
  (`subscribe` / `unsubscribe` / `publish`).

Modelling conventions:

* Python ints are `Int`; the float expressions `int(0.8 * capacity)` and
  `int(0.5 * capacity)` in the watermark defaults are embedded as the exact
  integer quotients `4 * capacity / 5` and `capacity / 2`, which agree with
  the float computation for every capacity the queue can realistically hold.
* An `await`ed callback either returns normally or raises; a single call is
  embedded as a `CbOutcome` value (`ok` or `raise`).  The drop callback
  receives the evicted item, so it is a function `T → CbOutcome`.
* `asyncio` suspension (`put` on a full queue under the `block` strategy,
  `get` on an empty queue) is embedded as a step that does not complete:
  the operation result carries `blocked := true` and leaves the state
  unchanged.
* Exceptions propagating out of `put`/`get` (`QueueFullError`, or an
  exception raised by a callback) appear in the `error` field of the
  operation result, together with the state the Python object is left in.
* Each invocation of a configured callback is recorded as a `Signal`;
  the high/low signals carry the mirrored size at the moment of the call
  (ghost data used to state the watermark conditions).
-/

namespace MarketDataStore

/-- Overflow strategies of `BoundedQueue` (`OverflowStrategy` literal type
in `queue.py`). -/
inductive OverflowStrategy
  | block
  | dropOldest
  | error
  deriving DecidableEq, Repr

/-- Outcome of awaiting one callback invocation: it returns normally or it
raises. -/
inductive CbOutcome
  | ok
  | raise
  deriving DecidableEq, Repr

/-- The optional callbacks handed to `BoundedQueue.__init__`: `on_high`,
`on_low` and `drop_callback`.  `none` models an unconfigured callback. -/
structure Callbacks (T : Type) where
  onHigh : Option CbOutcome
  onLow : Option CbOutcome
  dropCb : Option (T → CbOutcome)

/-- The configuration fixed by `BoundedQueue.__init__`: `_capacity`,
`_high_wm`, `_low_wm`, `_overflow`. -/
structure QueueConfig where
  capacity : Int
  highWm : Int
  lowWm : Int
  overflow : OverflowStrategy
  deriving DecidableEq, Repr

/-- The mutable state of a `BoundedQueue`: the underlying `asyncio.Queue`
buffer (head first), the mirrored `_size` counter, and the `_high_fired`
latch. -/
structure QueueState (T : Type) where
  buf : List T
  size : Int
  highFired : Bool
  deriving DecidableEq, Repr

/-- A recorded callback invocation.  `high`/`low` carry the mirrored size at
the moment `on_high`/`on_low` is awaited; `drop` carries the evicted item
passed to `drop_callback`. -/
inductive Signal (T : Type)
  | high (sz : Int)
  | low (sz : Int)
  | drop (item : T)
  deriving DecidableEq, Repr

/-- An exception propagating out of `put`/`get`: `QueueFullError`, or an
exception raised by one of the callbacks. -/
inductive QueueError
  | queueFull
  | callbackError
  deriving DecidableEq, Repr

/-- Result of `_maybe_signal_high` / `_maybe_signal_low`. -/
structure SigResult (T : Type) where
  state : QueueState T
  signals : List (Signal T)
  error : Option QueueError

/-- Result of one `put` or `get` call: the state the object is left in, the
callback invocations made, the item returned (`get` only), the exception
propagating out (if any), and whether the call suspended instead of
completing. -/
structure OpResult (T : Type) where
  state : QueueState T
  signals : List (Signal T)
  ret : Option T
  error : Option QueueError
  blocked : Bool

variable {T : Type}

/-- `BoundedQueue._maybe_signal_high`: if the latch is clear and
`_size >= _high_wm`, set the latch and await `on_high` (when configured);
an exception from `on_high` propagates. -/
def maybeSignalHigh (cfg : QueueConfig) (cbs : Callbacks T) (st : QueueState T) :
    SigResult T :=
  if ¬ st.highFired ∧ cfg.highWm ≤ st.size then
    let st' : QueueState T := { st with highFired := true }
    match cbs.onHigh with
    | none => ⟨st', [], none⟩
    | some CbOutcome.ok => ⟨st', [Signal.high st'.size], none⟩
    | some CbOutcome.raise => ⟨st', [Signal.high st'.size], some QueueError.callbackError⟩
  else ⟨st, [], none⟩

/-- `BoundedQueue._maybe_signal_low`: if the latch is set and
`_size <= _low_wm`, clear the latch and await `on_low` (when configured);
an exception from `on_low` propagates. -/
def maybeSignalLow (cfg : QueueConfig) (cbs : Callbacks T) (st : QueueState T) :
    SigResult T :=
  if st.highFired ∧ st.size ≤ cfg.lowWm then
    let st' : QueueState T := { st with highFired := false }
    match cbs.onLow with
    | none => ⟨st', [], none⟩
    | some CbOutcome.ok => ⟨st', [Signal.low st'.size], none⟩
    | some CbOutcome.raise => ⟨st', [Signal.low st'.size], some QueueError.callbackError⟩
  else ⟨st, [], none⟩

/-- `asyncio.Queue.full()`: with `maxsize = capacity`, the queue is full when
`0 < maxsize` and the buffer holds at least `maxsize` items. -/
def qFull (cfg : QueueConfig) (st : QueueState T) : Prop :=
  0 < cfg.capacity ∧ cfg.capacity ≤ (st.buf.length : Int)

instance (cfg : QueueConfig) (st : QueueState T) : Decidable (qFull cfg st) :=
  inferInstanceAs (Decidable (_ ∧ _))

/-- The shared tail of every `put` branch: `await self._q.put(item)`,
`self._size += 1`, `await self._maybe_signal_high()`. -/
def enqueue (cfg : QueueConfig) (cbs : Callbacks T) (st : QueueState T) (item : T) :
    OpResult T :=
  let st1 : QueueState T := { st with buf := st.buf ++ [item], size := st.size + 1 }
  let r := maybeSignalHigh cfg cbs st1
  ⟨r.state, r.signals, none, r.error, false⟩

/-- `BoundedQueue.put`: dispatch on the overflow strategy.

* `block`: `await self._q.put(item)` suspends while the queue is full;
  otherwise enqueue and check the high watermark.
* `error`: raise `QueueFullError` when full (state untouched); otherwise
  enqueue and check the high watermark.
* `drop_oldest`: when full, pop the head, decrement `_size` (with no
  low-watermark check), await `drop_callback(oldest)` when configured
  (an exception there propagates before the new item is enqueued), then
  enqueue and check the high watermark. -/
def put (cfg : QueueConfig) (cbs : Callbacks T) (st : QueueState T) (item : T) :
    OpResult T :=
  match cfg.overflow with
  | OverflowStrategy.block =>
    if qFull cfg st then ⟨st, [], none, none, true⟩
    else enqueue cfg cbs st item
  | OverflowStrategy.error =>
    if qFull cfg st then ⟨st, [], none, some QueueError.queueFull, false⟩
    else enqueue cfg cbs st item
  | OverflowStrategy.dropOldest =>
    if qFull cfg st then
      match st.buf with
      | [] => ⟨st, [], none, none, true⟩
      | oldest :: rest =>
        let st1 : QueueState T := { st with buf := rest, size := st.size - 1 }
        match cbs.dropCb with
        | none => enqueue cfg cbs st1 item
        | some f =>
          match f oldest with
          | CbOutcome.ok =>
            let r := enqueue cfg cbs st1 item
            ⟨r.state, Signal.drop oldest :: r.signals, r.ret, r.error, r.blocked⟩
          | CbOutcome.raise =>
            ⟨st1, [Signal.drop oldest], none, some QueueError.callbackError, false⟩
    else enqueue cfg cbs st item

/-- `BoundedQueue.get`: `await self._q.get()` suspends on an empty queue;
otherwise remove the head, decrement `_size`, check the low watermark, and
return the item (unless the `on_low` callback raised, in which case the
exception propagates and the caller never receives the item). -/
def get (cfg : QueueConfig) (cbs : Callbacks T) (st : QueueState T) : OpResult T :=
  match st.buf with
  | [] => ⟨st, [], none, none, true⟩
  | x :: rest =>
    let st1 : QueueState T := { st with buf := rest, size := st.size - 1 }
    let r := maybeSignalLow cfg cbs st1
    ⟨r.state, r.signals, match r.error with | none => some x | some _ => none,
      r.error, false⟩

/-- Default high watermark: `max(1, int(0.8 * capacity))`. -/
def defaultHighWm (capacity : Int) : Int :=
  max 1 (4 * capacity / 5)

/-- Default low watermark: `int(0.5 * capacity)`. -/
def defaultLowWm (capacity : Int) : Int :=
  capacity / 2

/-- The exception raised by `BoundedQueue.__init__`. -/
inductive InitError
  | valueError
  deriving DecidableEq, Repr

/-- `BoundedQueue.__init__`: reject `capacity <= 0` with `ValueError`;
otherwise record the capacity, the (defaulted) watermarks and the overflow
strategy.  No watermark validation is performed. -/
def initQueue (capacity : Int) (highWatermark lowWatermark : Option Int)
    (overflow : OverflowStrategy) : Except InitError QueueConfig :=
  if capacity ≤ 0 then Except.error InitError.valueError
  else
    Except.ok
      ⟨capacity, highWatermark.getD (defaultHighWm capacity),
        lowWatermark.getD (defaultLowWm capacity), overflow⟩

/-- The state of a freshly constructed `BoundedQueue`: empty buffer,
`_size = 0`, latch clear. -/
def initState (T : Type) : QueueState T :=
  ⟨[], 0, false⟩

/-- One producer/consumer action on the queue. -/
inductive Act (T : Type)
  | put (x : T)
  | get
  deriving DecidableEq, Repr

/-- Interpret one action. -/
def step (cfg : QueueConfig) (cbs : Callbacks T) (st : QueueState T) :
    Act T → OpResult T
  | Act.put x => put cfg cbs st x
  | Act.get => get cfg cbs st

/-- Result of running a sequence of actions: final state, the concatenated
callback invocations, and the items returned by the completed `get`s. -/
structure TraceResult (T : Type) where
  state : QueueState T
  signals : List (Signal T)
  rets : List T

/-- Run a sequence of `put`/`get` actions from a state. -/
def runTrace (cfg : QueueConfig) (cbs : Callbacks T) :
    QueueState T → List (Act T) → TraceResult T
  | st, [] => ⟨st, [], []⟩
  | st, a :: rest =>
    let r := step cfg cbs st a
    let tr := runTrace cfg cbs r.state rest
    ⟨tr.state, r.signals ++ tr.signals, r.ret.toList ++ tr.rets⟩

/-- The states visited while running a sequence of actions (initial state
included): every observable point of the run. -/
def traceStates (cfg : QueueConfig) (cbs : Callbacks T) :
    QueueState T → List (Act T) → List (QueueState T)
  | st, [] => [st]
  | st, a :: rest => st :: traceStates cfg cbs (step cfg cbs st a).state rest

/-- High/low classification of a recorded callback invocation (drop-callback
invocations are discarded). -/
inductive HL
  | high
  | low
  deriving DecidableEq, Repr

/-- Classify one signal as a high or low watermark invocation. -/
def hlOf : Signal T → Option HL
  | Signal.high _ => some HL.high
  | Signal.low _ => some HL.low
  | Signal.drop _ => none

/-- The subsequence of high/low watermark invocations in a signal list. -/
def hlTrace (sigs : List (Signal T)) : List HL :=
  sigs.filterMap hlOf

/-- `alternatesFrom b tr` holds when, starting from latch state `b`, the
high/low invocations strictly alternate: `high` occurs only with the latch
clear and `low` only with the latch set.  From `b = false` this forces the
pattern `high, low, high, low, …`. -/
def alternatesFrom : Bool → List HL → Bool
  | _, [] => true
  | b, HL.high :: rest => !b && alternatesFrom true rest
  | b, HL.low :: rest => b && alternatesFrom false rest

/-- The latch state after a sequence of high/low invocations, starting
from `b`. -/
def finalLatch : Bool → List HL → Bool
  | b, [] => b
  | _, HL.high :: rest => finalLatch true rest
  | _, HL.low :: rest => finalLatch false rest

/-- Watermark side conditions of a recorded invocation: `on_high` is called
with the size at or above the high watermark, `on_low` with the size at or
below the low watermark. -/
def sigOk (cfg : QueueConfig) : Signal T → Bool
  | Signal.high n => decide (cfg.highWm ≤ n)
  | Signal.low n => decide (n ≤ cfg.lowWm)
  | Signal.drop _ => true

/-- The `BoundedQueue` state invariant: the mirrored `_size` equals the
buffer length, and the buffer never exceeds the capacity. -/
def Inv (cfg : QueueConfig) (st : QueueState T) : Prop :=
  st.size = (st.buf.length : Int) ∧ (st.buf.length : Int) ≤ cfg.capacity

/-- Replace every configured callback by one that returns normally,
leaving configuredness unchanged (used to compare a run whose callbacks
raise with the same run whose callbacks succeed). -/
def Callbacks.okify (cbs : Callbacks T) : Callbacks T :=
  ⟨cbs.onHigh.map fun _ => CbOutcome.ok,
    cbs.onLow.map fun _ => CbOutcome.ok,
    cbs.dropCb.map fun _ _ => CbOutcome.ok⟩

/-- No configured drop callback ever raises. -/
def dropNeverRaises (cbs : Callbacks T) : Prop :=
  ∀ f, cbs.dropCb = some f → ∀ x, f x = CbOutcome.ok

/-- `BackpressureLevel(str, Enum)`: exactly the three members `OK`, `SOFT`,
`HARD`. -/
inductive BackpressureLevel
  | ok
  | soft
  | hard
  deriving DecidableEq, Repr

/-- The wire value of each `BackpressureLevel` member (its string value in
the enum definition). -/
def BackpressureLevel.wireValue : BackpressureLevel → String
  | BackpressureLevel.ok => "ok"
  | BackpressureLevel.soft => "soft"
  | BackpressureLevel.hard => "hard"

/-- The frozen dataclass `FeedbackEvent`: `coordinator_id`, `queue_size`,
`capacity`, `level`, and the optional `reason` (default `None`). -/
structure FeedbackEvent where
  coordinator_id : String
  queue_size : Int
  capacity : Int
  level : BackpressureLevel
  reason : Option String := none
  deriving DecidableEq, Repr

/-- The field names of the `FeedbackEvent` dataclass, in declaration
order. -/
def feedbackEventFields : List String :=
  ["coordinator_id", "queue_size", "capacity", "level", "reason"]

/-- Python integer true division `a / b`: raises `ZeroDivisionError` on
`b = 0` (embedded as `none`), otherwise the exact quotient. -/
def pyDiv (a b : Int) : Option Rat :=
  if b = 0 then none else some ((a : Rat) / (b : Rat))

/-- `FeedbackEvent.utilization`:
`self.queue_size / self.capacity if self.capacity > 0 else 0.0`. -/
def FeedbackEvent.utilization (e : FeedbackEvent) : Option Rat :=
  if 0 < e.capacity then pyDiv e.queue_size e.capacity else some (0 : Rat)

/-!
`FeedbackBus`.  Python compares subscribers by `==`, which for callables is
object identity; a subscriber is therefore embedded as an identity (a `Nat`)
together with a behaviour map giving, for each identity, the outcome of
awaiting that subscriber on a given event.
-/

/-- `FeedbackBus.subscribe`: append the callback unless already present. -/
def subscribe (subs : List Nat) (cb : Nat) : List Nat :=
  if cb ∈ subs then subs else subs ++ [cb]

/-- `FeedbackBus.unsubscribe`: `list.remove` drops the first occurrence;
the `ValueError` on a missing callback is swallowed (no-op). -/
def unsubscribe (subs : List Nat) (cb : Nat) : List Nat :=
  subs.erase cb

/-- The `for callback in list(self._subs)` loop of `FeedbackBus.publish`:
each subscriber is awaited inside `try`/`except Exception`, so a raising
subscriber is recorded (caught and logged) and iteration continues with the
remaining subscribers. -/
def publishCalls (behavior : Nat → FeedbackEvent → CbOutcome) (e : FeedbackEvent) :
    List Nat → Except String (List CbOutcome)
  | [] => Except.ok []
  | s :: rest =>
    let outcome := behavior s e
    match publishCalls behavior e rest with
    | Except.ok tr => Except.ok (outcome :: tr)
    | Except.error msg => Except.error msg

/-- `FeedbackBus.publish`: fast path on an empty subscriber list, otherwise
run the delivery loop over a snapshot of the list. -/
def publish (subs : List Nat) (behavior : Nat → FeedbackEvent → CbOutcome)
    (e : FeedbackEvent) : Except String (List CbOutcome) :=
  if subs.isEmpty then Except.ok []
  else publishCalls behavior e subs

/-! ### Helper lemmas -/

theorem hlTrace_append (xs ys : List (Signal T)) :
    hlTrace (xs ++ ys) = hlTrace xs ++ hlTrace ys :=
  List.filterMap_append xs ys hlOf

theorem alternatesFrom_append (xs : List HL) (b : Bool) (ys : List HL) :
    alternatesFrom b (xs ++ ys) =
      (alternatesFrom b xs && alternatesFrom (finalLatch b xs) ys) := by
  induction xs generalizing b with
  | nil => simp [alternatesFrom, finalLatch]
  | cons x xs ih =>
    cases x <;> simp [alternatesFrom, finalLatch, ih, Bool.and_assoc]

theorem finalLatch_append (xs : List HL) (b : Bool) (ys : List HL) :
    finalLatch b (xs ++ ys) = finalLatch (finalLatch b xs) ys := by
  induction xs generalizing b with
  | nil => simp [finalLatch]
  | cons x xs ih => cases x <;> simp [finalLatch, ih]

theorem maybeSignalHigh_state (cfg : QueueConfig) (cbs : Callbacks T) (st : QueueState T) :
    (maybeSignalHigh cfg cbs st).state.buf = st.buf ∧
    (maybeSignalHigh cfg cbs st).state.size = st.size := by
  unfold maybeSignalHigh
  split
  · cases cbs.onHigh with
    | none => simp
    | some o => cases o <;> simp
  · simp

theorem maybeSignalLow_state (cfg : QueueConfig) (cbs : Callbacks T) (st : QueueState T) :
    (maybeSignalLow cfg cbs st).state.buf = st.buf ∧
    (maybeSignalLow cfg cbs st).state.size = st.size := by
  unfold maybeSignalLow
  split
  · cases cbs.onLow with
    | none => simp
    | some o => cases o <;> simp
  · simp

theorem maybeSignalHigh_latch (cfg : QueueConfig) (cbs : Callbacks T) (st : QueueState T)
    (hH : cbs.onHigh.isSome = true) :
    alternatesFrom st.highFired (hlTrace (maybeSignalHigh cfg cbs st).signals) = true ∧
    (maybeSignalHigh cfg cbs st).state.highFired =
      finalLatch st.highFired (hlTrace (maybeSignalHigh cfg cbs st).signals) ∧
    (maybeSignalHigh cfg cbs st).signals.all (sigOk cfg) = true := by
  unfold maybeSignalHigh
  split
  · rename_i h
    obtain ⟨h1, h2⟩ := h
    cases hO : cbs.onHigh with
    | none => rw [hO] at hH; simp at hH
    | some o =>
      cases o <;>
        simp_all [hlTrace, hlOf, alternatesFrom, finalLatch, sigOk]
  · simp [hlTrace, alternatesFrom, finalLatch]

theorem maybeSignalLow_latch (cfg : QueueConfig) (cbs : Callbacks T) (st : QueueState T)
    (hL : cbs.onLow.isSome = true) :
    alternatesFrom st.highFired (hlTrace (maybeSignalLow cfg cbs st).signals) = true ∧
    (maybeSignalLow cfg cbs st).state.highFired =
      finalLatch st.highFired (hlTrace (maybeSignalLow cfg cbs st).signals) ∧
    (maybeSignalLow cfg cbs st).signals.all (sigOk cfg) = true := by
  unfold maybeSignalLow
  split
  · rename_i h
    obtain ⟨h1, h2⟩ := h
    cases hO : cbs.onLow with
    | none => rw [hO] at hL; simp at hL
    | some o =>
      cases o <;>
        simp_all [hlTrace, hlOf, alternatesFrom, finalLatch, sigOk]
  · simp [hlTrace, alternatesFrom, finalLatch]

theorem enqueue_state (cfg : QueueConfig) (cbs : Callbacks T) (st : QueueState T) (item : T) :
    (enqueue cfg cbs st item).state.buf = st.buf ++ [item] ∧
    (enqueue cfg cbs st item).state.size = st.size + 1 := by
  have h := maybeSignalHigh_state cfg cbs
    { st with buf := st.buf ++ [item], size := st.size + 1 }
  simpa [enqueue] using h

theorem enqueue_latch (cfg : QueueConfig) (cbs : Callbacks T) (st : QueueState T) (item : T)
    (hH : cbs.onHigh.isSome = true) :
    alternatesFrom st.highFired (hlTrace (enqueue cfg cbs st item).signals) = true ∧
    (enqueue cfg cbs st item).state.highFired =
      finalLatch st.highFired (hlTrace (enqueue cfg cbs st item).signals) ∧
    (enqueue cfg cbs st item).signals.all (sigOk cfg) = true := by
  have h := maybeSignalHigh_latch cfg cbs
    { st with buf := st.buf ++ [item], size := st.size + 1 } hH
  simpa [enqueue] using h

theorem put_latch (cfg : QueueConfig) (cbs : Callbacks T) (st : QueueState T) (item : T)
    (hH : cbs.onHigh.isSome = true) :
    alternatesFrom st.highFired (hlTrace (put cfg cbs st item).signals) = true ∧
    (put cfg cbs st item).state.highFired =
      finalLatch st.highFired (hlTrace (put cfg cbs st item).signals) ∧
    (put cfg cbs st item).signals.all (sigOk cfg) = true := by
  cases hov : cfg.overflow with
  | block =>
    simp only [put, hov]
    split
    · simp [hlTrace, alternatesFrom, finalLatch]
    · exact enqueue_latch cfg cbs st item hH
  | error =>
    simp only [put, hov]
    split
    · simp [hlTrace, alternatesFrom, finalLatch]
    · exact enqueue_latch cfg cbs st item hH
  | dropOldest =>
    simp only [put, hov]
    split
    · cases hb : st.buf with
      | nil => simp [hlTrace, alternatesFrom, finalLatch]
      | cons oldest rest =>
        simp only
        cases hd : cbs.dropCb with
        | none =>
          have h := enqueue_latch cfg cbs { st with buf := rest, size := st.size - 1 } item hH
          simpa using h
        | some f =>
          cases hfo : f oldest with
          | ok =>
            have h := enqueue_latch cfg cbs { st with buf := rest, size := st.size - 1 } item hH
            simp only [hfo]
            simpa [hlTrace, hlOf, sigOk] using h
          | raise => simp [hfo, hlTrace, hlOf, alternatesFrom, finalLatch, sigOk]
    · exact enqueue_latch cfg cbs st item hH

theorem get_latch (cfg : QueueConfig) (cbs : Callbacks T) (st : QueueState T)
    (hL : cbs.onLow.isSome = true) :
    alternatesFrom st.highFired (hlTrace (get cfg cbs st).signals) = true ∧
    (get cfg cbs st).state.highFired =
      finalLatch st.highFired (hlTrace (get cfg cbs st).signals) ∧
    (get cfg cbs st).signals.all (sigOk cfg) = true := by
  unfold get
  cases hb : st.buf with
  | nil => simp [hlTrace, alternatesFrom, finalLatch]
  | cons x rest =>
    have h := maybeSignalLow_latch cfg cbs { st with buf := rest, size := st.size - 1 } hL
    simpa using h

theorem step_latch (cfg : QueueConfig) (cbs : Callbacks T) (st : QueueState T) (a : Act T)
    (hH : cbs.onHigh.isSome = true) (hL : cbs.onLow.isSome = true) :
    alternatesFrom st.highFired (hlTrace (step cfg cbs st a).signals) = true ∧
    (step cfg cbs st a).state.highFired =
      finalLatch st.highFired (hlTrace (step cfg cbs st a).signals) ∧
    (step cfg cbs st a).signals.all (sigOk cfg) = true := by
  cases a with
  | put x => exact put_latch cfg cbs st x hH
  | get => exact get_latch cfg cbs st hL

theorem runTrace_latch (cfg : QueueConfig) (cbs : Callbacks T)
    (hH : cbs.onHigh.isSome = true) (hL : cbs.onLow.isSome = true)
    (acts : List (Act T)) :
    ∀ st : QueueState T,
      alternatesFrom st.highFired (hlTrace (runTrace cfg cbs st acts).signals) = true ∧
      (runTrace cfg cbs st acts).state.highFired =
        finalLatch st.highFired (hlTrace (runTrace cfg cbs st acts).signals) ∧
      (runTrace cfg cbs st acts).signals.all (sigOk cfg) = true := by
  induction acts with
  | nil => intro st; simp [runTrace, hlTrace, alternatesFrom, finalLatch]
  | cons a rest ih =>
    intro st
    have hstep := step_latch cfg cbs st a hH hL
    have hrest := ih (step cfg cbs st a).state
    have e1 : finalLatch st.highFired (hlTrace (step cfg cbs st a).signals) =
        (step cfg cbs st a).state.highFired := hstep.2.1.symm
    simp only [runTrace]
    refine ⟨?_, ?_, ?_⟩
    · rw [hlTrace_append, alternatesFrom_append, e1]
      simp [hstep.1, hrest.1]
    · rw [hlTrace_append, finalLatch_append, e1]
      exact hrest.2.1
    · rw [List.all_append]
      simp [hstep.2.2, hrest.2.2]

theorem put_inv (cfg : QueueConfig) (cbs : Callbacks T) (st : QueueState T) (item : T)
    (hcap : 0 < cfg.capacity) (h : Inv cfg st) : Inv cfg (put cfg cbs st item).state := by
  obtain ⟨h1, h2⟩ := h
  cases hov : cfg.overflow with
  | block =>
    simp only [put, hov]
    split
    · exact ⟨h1, h2⟩
    · rename_i hnf
      have hb := (enqueue_state cfg cbs st item).1
      have hs := (enqueue_state cfg cbs st item).2
      have hlt : (st.buf.length : Int) < cfg.capacity := by
        simp only [qFull, not_and, not_le] at hnf
        exact hnf hcap
      refine ⟨?_, ?_⟩
      · rw [hs, hb, h1]; simp only [List.length_append, List.length_singleton]; push_cast; ring
      · rw [hb]; simp only [List.length_append, List.length_singleton]; push_cast; omega
  | error =>
    simp only [put, hov]
    split
    · exact ⟨h1, h2⟩
    · rename_i hnf
      have hb := (enqueue_state cfg cbs st item).1
      have hs := (enqueue_state cfg cbs st item).2
      have hlt : (st.buf.length : Int) < cfg.capacity := by
        simp only [qFull, not_and, not_le] at hnf
        exact hnf hcap
      refine ⟨?_, ?_⟩
      · rw [hs, hb, h1]; simp only [List.length_append, List.length_singleton]; push_cast; ring
      · rw [hb]; simp only [List.length_append, List.length_singleton]; push_cast; omega
  | dropOldest =>
    simp only [put, hov]
    split
    · rename_i hf
      obtain ⟨-, hf2⟩ := hf
      cases hb : st.buf with
      | nil => exact ⟨h1, h2⟩
      | cons oldest rest =>
        rw [hb] at h1 h2
        simp only
        have hrest1 : st.size - 1 = ((rest.length : Nat) : Int) := by
          rw [h1]; push_cast [List.length_cons]; ring
        cases hd : cbs.dropCb with
        | none =>
          have hb' := (enqueue_state cfg cbs { st with buf := rest, size := st.size - 1 } item).1
          have hs' := (enqueue_state cfg cbs { st with buf := rest, size := st.size - 1 } item).2
          refine ⟨?_, ?_⟩
          · rw [hs', hb']; simp only
            rw [hrest1]; simp only [List.length_append, List.length_singleton]; push_cast; ring
          · rw [hb']; simp only
            simp only [List.length_append, List.length_singleton]
            push_cast
            push_cast [List.length_cons] at h2
            omega
        | some f =>
          cases hfo : f oldest with
          | ok =>
            have hb' := (enqueue_state cfg cbs { st with buf := rest, size := st.size - 1 } item).1
            have hs' := (enqueue_state cfg cbs { st with buf := rest, size := st.size - 1 } item).2
            refine ⟨?_, ?_⟩
            · simp only [hfo]
              rw [hs', hb']; simp only
              rw [hrest1]; simp only [List.length_append, List.length_singleton]; push_cast; ring
            · simp only [hfo]
              rw [hb']; simp only
              simp only [List.length_append, List.length_singleton]
              push_cast
              push_cast [List.length_cons] at h2
              omega
          | raise =>
            simp only [hfo]
            refine ⟨hrest1, ?_⟩
            push_cast [List.length_cons] at h2
            push_cast
            omega
    · rename_i hnf
      have hb := (enqueue_state cfg cbs st item).1
      have hs := (enqueue_state cfg cbs st item).2
      have hlt : (st.buf.length : Int) < cfg.capacity := by
        simp only [qFull, not_and, not_le] at hnf
        exact hnf hcap
      refine ⟨?_, ?_⟩
      · rw [hs, hb, h1]; simp only [List.length_append, List.length_singleton]; push_cast; ring
      · rw [hb]; simp only [List.length_append, List.length_singleton]; push_cast; omega

theorem get_inv (cfg : QueueConfig) (cbs : Callbacks T) (st : QueueState T)
    (h : Inv cfg st) : Inv cfg (get cfg cbs st).state := by
  obtain ⟨h1, h2⟩ := h
  cases hb : st.buf with
  | nil => simp only [get, hb]; exact ⟨h1, h2⟩
  | cons x rest =>
    rw [hb] at h1 h2
    simp only [get, hb]
    have hb' := (maybeSignalLow_state cfg cbs { st with buf := rest, size := st.size - 1 }).1
    have hs' := (maybeSignalLow_state cfg cbs { st with buf := rest, size := st.size - 1 }).2
    refine ⟨?_, ?_⟩
    · rw [hs', hb']; simp only
      rw [h1]; push_cast [List.length_cons]; ring
    · rw [hb']; simp only
      push_cast [List.length_cons] at h2
      omega

theorem step_inv (cfg : QueueConfig) (cbs : Callbacks T) (st : QueueState T) (a : Act T)
    (hcap : 0 < cfg.capacity) (h : Inv cfg st) : Inv cfg (step cfg cbs st a).state := by
  cases a with
  | put x => exact put_inv cfg cbs st x hcap h
  | get => exact get_inv cfg cbs st h

theorem traceStates_inv (cfg : QueueConfig) (cbs : Callbacks T) (hcap : 0 < cfg.capacity)
    (acts : List (Act T)) :
    ∀ st : QueueState T, Inv cfg st →
      ∀ s ∈ traceStates cfg cbs st acts, Inv cfg s := by
  induction acts with
  | nil =>
    intro st h s hs
    simp only [traceStates, List.mem_singleton] at hs
    exact hs ▸ h
  | cons a rest ih =>
    intro st h s hs
    simp only [traceStates, List.mem_cons] at hs
    rcases hs with rfl | hs
    · exact h
    · exact ih (step cfg cbs st a).state (step_inv cfg cbs st a hcap h) s hs

theorem enqueue_no_queueFull (cfg : QueueConfig) (cbs : Callbacks T) (st : QueueState T)
    (item : T) :
    (enqueue cfg cbs st item).error = none ∨
      (enqueue cfg cbs st item).error = some QueueError.callbackError := by
  simp only [enqueue, maybeSignalHigh]
  split
  · cases cbs.onHigh with
    | none => simp
    | some o => cases o <;> simp
  · simp

theorem maybeSignalHigh_okify_spec (cfg : QueueConfig) (cbs : Callbacks T) (st : QueueState T) :
    (maybeSignalHigh cfg cbs.okify st).state = (maybeSignalHigh cfg cbs st).state ∧
    (maybeSignalHigh cfg cbs.okify st).signals = (maybeSignalHigh cfg cbs st).signals ∧
    ((maybeSignalHigh cfg cbs st).error = some QueueError.callbackError ↔
      (cbs.onHigh = some CbOutcome.raise ∧
        HL.high ∈ hlTrace (maybeSignalHigh cfg cbs st).signals)) := by
  simp only [maybeSignalHigh, Callbacks.okify]
  cases hO : cbs.onHigh with
  | none => split <;> simp [hlTrace, hlOf]
  | some o => cases o <;> (split <;> simp [hlTrace, hlOf])

theorem maybeSignalLow_okify_spec (cfg : QueueConfig) (cbs : Callbacks T) (st : QueueState T) :
    (maybeSignalLow cfg cbs.okify st).state = (maybeSignalLow cfg cbs st).state ∧
    (maybeSignalLow cfg cbs.okify st).signals = (maybeSignalLow cfg cbs st).signals ∧
    ((maybeSignalLow cfg cbs st).error = some QueueError.callbackError ↔
      (cbs.onLow = some CbOutcome.raise ∧
        HL.low ∈ hlTrace (maybeSignalLow cfg cbs st).signals)) := by
  simp only [maybeSignalLow, Callbacks.okify]
  cases hO : cbs.onLow with
  | none => split <;> simp [hlTrace, hlOf]
  | some o => cases o <;> (split <;> simp [hlTrace, hlOf])

theorem enqueue_onHigh_congr (cfg : QueueConfig) (cbs cbs' : Callbacks T)
    (h : cbs.onHigh = cbs'.onHigh) (st : QueueState T) (item : T) :
    enqueue cfg cbs st item = enqueue cfg cbs' st item := by
  simp only [enqueue, maybeSignalHigh, h]

theorem enqueue_okify_spec (cfg : QueueConfig) (cbs : Callbacks T) (st : QueueState T)
    (item : T) :
    (enqueue cfg cbs.okify st item).state = (enqueue cfg cbs st item).state ∧
    (enqueue cfg cbs.okify st item).signals = (enqueue cfg cbs st item).signals ∧
    ((enqueue cfg cbs st item).error = some QueueError.callbackError ↔
      (cbs.onHigh = some CbOutcome.raise ∧
        HL.high ∈ hlTrace (enqueue cfg cbs st item).signals)) := by
  have h := maybeSignalHigh_okify_spec cfg cbs
    { st with buf := st.buf ++ [item], size := st.size + 1 }
  simpa [enqueue] using h

theorem put_okify_spec (cfg : QueueConfig) (cbs : Callbacks T) (st : QueueState T) (item : T)
    (hdrop : dropNeverRaises cbs) :
    (put cfg cbs.okify st item).state = (put cfg cbs st item).state ∧
    (put cfg cbs.okify st item).signals = (put cfg cbs st item).signals ∧
    ((put cfg cbs st item).error = some QueueError.callbackError ↔
      (cbs.onHigh = some CbOutcome.raise ∧
        HL.high ∈ hlTrace (put cfg cbs st item).signals)) := by
  cases hov : cfg.overflow with
  | block =>
    simp only [put, hov]
    split
    · simp [hlTrace]
    · exact enqueue_okify_spec cfg cbs st item
  | error =>
    simp only [put, hov]
    split
    · simp [hlTrace]
    · exact enqueue_okify_spec cfg cbs st item
  | dropOldest =>
    simp only [put, hov]
    split
    · cases hb : st.buf with
      | nil => simp [hlTrace]
      | cons oldest rest =>
        simp only
        cases hd : cbs.dropCb with
        | none =>
          simp only [Callbacks.okify, hd, Option.map_none']
          exact enqueue_okify_spec cfg cbs { st with buf := rest, size := st.size - 1 } item
        | some f =>
          have hfo : f oldest = CbOutcome.ok := hdrop f hd oldest
          simp only [Callbacks.okify, hd, Option.map_some', hfo]
          have h := enqueue_okify_spec cfg cbs { st with buf := rest, size := st.size - 1 } item
          have he :
              enqueue cfg
                ⟨Option.map (fun _ => CbOutcome.ok) cbs.onHigh,
                  Option.map (fun _ => CbOutcome.ok) cbs.onLow,
                  some fun _ => CbOutcome.ok⟩
                { st with buf := rest, size := st.size - 1 } item =
              enqueue cfg cbs.okify { st with buf := rest, size := st.size - 1 } item :=
            enqueue_onHigh_congr cfg _ _ rfl _ item
          rw [he]
          refine ⟨h.1, ?_, ?_⟩
          · simp [h.2.1]
          · simpa [hlTrace, hlOf] using h.2.2
    · exact enqueue_okify_spec cfg cbs st item

theorem get_okify_spec (cfg : QueueConfig) (cbs : Callbacks T) (st : QueueState T) :
    (get cfg cbs.okify st).state = (get cfg cbs st).state ∧
    (get cfg cbs.okify st).signals = (get cfg cbs st).signals ∧
    ((get cfg cbs st).error = some QueueError.callbackError ↔
      (cbs.onLow = some CbOutcome.raise ∧
        HL.low ∈ hlTrace (get cfg cbs st).signals)) := by
  cases hb : st.buf with
  | nil => simp [get, hb, hlTrace]
  | cons x rest =>
    simp only [get, hb]
    have h := maybeSignalLow_okify_spec cfg cbs { st with buf := rest, size := st.size - 1 }
    exact ⟨h.1, h.2.1, h.2.2⟩

/-! ### Claim theorems -/

/-- Claim C1: hysteresis of watermark callbacks.  For every queue
configuration with `on_high` and `on_low` callbacks configured and every
sequence of `put`/`get` operations started on a fresh queue, (a) the
high/low callback invocations strictly alternate starting from a clear
latch — `on_high` fires only with the latch clear (which it sets), `on_low`
only with the latch set (which it clears), so between two successive
`on_high` invocations there is exactly one `on_low` and neither callback
ever fires twice in the same direction — and (b) every `on_high` invocation
happens with the size at or above `high_watermark` and every `on_low`
invocation with the size at or below `low_watermark`. -/
theorem watermark_hysteresis (cfg : QueueConfig) (cbs : Callbacks T)
    (acts : List (Act T))
    (hH : cbs.onHigh.isSome = true) (hL : cbs.onLow.isSome = true) :
    alternatesFrom false
      (hlTrace (runTrace cfg cbs (initState T) acts).signals) = true ∧
    (runTrace cfg cbs (initState T) acts).signals.all (sigOk cfg) = true := by
  have h := runTrace_latch cfg cbs hH hL acts (initState T)
  exact ⟨h.1, h.2.2⟩

/-- Witness for C1: the hysteresis theorem applied to a capacity-10 queue
with watermarks 8/4 and a concrete workload crossing both watermarks. -/
theorem watermark_hysteresis_witness :
    alternatesFrom false
      (hlTrace
        (runTrace (⟨10, 8, 4, OverflowStrategy.block⟩ : QueueConfig)
          (⟨some CbOutcome.ok, some CbOutcome.ok, none⟩ : Callbacks Nat)
          (initState Nat)
          [Act.put 1, Act.put 2, Act.put 3, Act.put 4, Act.put 5, Act.put 6,
            Act.put 7, Act.put 8, Act.get, Act.get, Act.get, Act.get, Act.get,
            Act.put 9, Act.put 10]).signals) = true ∧
    (runTrace (⟨10, 8, 4, OverflowStrategy.block⟩ : QueueConfig)
          (⟨some CbOutcome.ok, some CbOutcome.ok, none⟩ : Callbacks Nat)
          (initState Nat)
          [Act.put 1, Act.put 2, Act.put 3, Act.put 4, Act.put 5, Act.put 6,
            Act.put 7, Act.put 8, Act.get, Act.get, Act.get, Act.get, Act.get,
            Act.put 9, Act.put 10]).signals.all
        (sigOk ⟨10, 8, 4, OverflowStrategy.block⟩) = true :=
  watermark_hysteresis ⟨10, 8, 4, OverflowStrategy.block⟩
    ⟨some CbOutcome.ok, some CbOutcome.ok, none⟩
    [Act.put 1, Act.put 2, Act.put 3, Act.put 4, Act.put 5, Act.put 6,
      Act.put 7, Act.put 8, Act.get, Act.get, Act.get, Act.get, Act.get,
      Act.put 9, Act.put 10] rfl rfl

/-- Claim C2: bounded-size invariant.  For every queue configuration with
positive capacity, every callback behaviour, and every sequence of
`put`/`get` operations started on a fresh queue, at every observable point
of the run the mirrored size equals the buffer length and satisfies
`0 ≤ size ≤ capacity`. -/
theorem bounded_size_invariant (cfg : QueueConfig) (cbs : Callbacks T)
    (acts : List (Act T)) (hcap : 0 < cfg.capacity) :
    ∀ s ∈ traceStates cfg cbs (initState T) acts,
      s.size = (s.buf.length : Int) ∧ 0 ≤ s.size ∧ s.size ≤ cfg.capacity := by
  intro s hs
  have h0 : Inv cfg (initState T) := by
    refine ⟨rfl, ?_⟩
    simp only [initState, List.length_nil, Nat.cast_zero]
    exact le_of_lt hcap
  obtain ⟨h1, h2⟩ := traceStates_inv cfg cbs hcap acts (initState T) h0 s hs
  refine ⟨h1, ?_, ?_⟩ <;> omega

/-- Witness for C2: the invariant theorem applied to a capacity-3 queue, a
concrete workload, and the state reached after two puts. -/
theorem bounded_size_invariant_witness :
    (⟨[7, 8], 2, true⟩ : QueueState Nat).size =
      ((⟨[7, 8], 2, true⟩ : QueueState Nat).buf.length : Int) ∧
    0 ≤ (⟨[7, 8], 2, true⟩ : QueueState Nat).size ∧
    (⟨[7, 8], 2, true⟩ : QueueState Nat).size ≤
      (⟨3, 2, 1, OverflowStrategy.block⟩ : QueueConfig).capacity :=
  bounded_size_invariant ⟨3, 2, 1, OverflowStrategy.block⟩
    ⟨some CbOutcome.ok, some CbOutcome.ok, none⟩
    [Act.put 7, Act.put 8, Act.get] (by decide) ⟨[7, 8], 2, true⟩ (by decide)

/-- Claim C3: `drop_oldest` overflow.  On a capacity-5 queue (default
watermarks 4/2) filled with 0,1,2,3,4, `put 99` evicts the head 0, invokes
the drop callback with exactly that evicted head, then enqueues 99; a full
drain returns 1,2,3,4,99 in order, and the size never exceeds the capacity
at any point of the run. -/
theorem drop_oldest_scenario :
    (runTrace (⟨5, 4, 2, OverflowStrategy.dropOldest⟩ : QueueConfig)
        (⟨none, none, some fun _ => CbOutcome.ok⟩ : Callbacks Nat) (initState Nat)
        [Act.put 0, Act.put 1, Act.put 2, Act.put 3, Act.put 4,
          Act.put 99]).state.buf = [1, 2, 3, 4, 99] ∧
    (runTrace (⟨5, 4, 2, OverflowStrategy.dropOldest⟩ : QueueConfig)
        (⟨none, none, some fun _ => CbOutcome.ok⟩ : Callbacks Nat) (initState Nat)
        [Act.put 0, Act.put 1, Act.put 2, Act.put 3, Act.put 4,
          Act.put 99]).signals = [Signal.drop 0] ∧
    (runTrace (⟨5, 4, 2, OverflowStrategy.dropOldest⟩ : QueueConfig)
        (⟨none, none, some fun _ => CbOutcome.ok⟩ : Callbacks Nat) (initState Nat)
        [Act.put 0, Act.put 1, Act.put 2, Act.put 3, Act.put 4, Act.put 99,
          Act.get, Act.get, Act.get, Act.get, Act.get]).rets = [1, 2, 3, 4, 99] ∧
    (traceStates (⟨5, 4, 2, OverflowStrategy.dropOldest⟩ : QueueConfig)
        (⟨none, none, some fun _ => CbOutcome.ok⟩ : Callbacks Nat) (initState Nat)
        [Act.put 0, Act.put 1, Act.put 2, Act.put 3, Act.put 4, Act.put 99,
          Act.get, Act.get, Act.get, Act.get, Act.get]).all
      (fun s => decide (s.size ≤ 5)) = true := by
  decide

/-- Claim C4: `error` overflow strategy.  On a queue in a consistent state,
`put` raises `QueueFullError` exactly when the size equals the capacity at
the time of the call; when it raises, the queue state (contents, size,
latch) is unchanged and no callback is invoked; when it does not raise
`QueueFullError`, the item is enqueued at the tail. -/
theorem error_strategy_spec (cfg : QueueConfig) (cbs : Callbacks T)
    (st : QueueState T) (item : T)
    (hov : cfg.overflow = OverflowStrategy.error) (hcap : 0 < cfg.capacity)
    (h1 : st.size = (st.buf.length : Int)) (h2 : (st.buf.length : Int) ≤ cfg.capacity) :
    ((put cfg cbs st item).error = some QueueError.queueFull ↔
      st.size = cfg.capacity) ∧
    ((put cfg cbs st item).error = some QueueError.queueFull →
      (put cfg cbs st item).state = st ∧ (put cfg cbs st item).signals = []) ∧
    ((put cfg cbs st item).error ≠ some QueueError.queueFull →
      (put cfg cbs st item).state.buf = st.buf ++ [item]) := by
  simp only [put, hov]
  split
  · rename_i hf
    obtain ⟨-, hf2⟩ := hf
    refine ⟨?_, ?_, ?_⟩
    · simp only [true_iff]
      omega
    · intro _; exact ⟨rfl, rfl⟩
    · intro hne; exact absurd rfl hne
  · rename_i hnf
    have hlt : (st.buf.length : Int) < cfg.capacity := by
      simp only [qFull, not_and, not_le] at hnf
      exact hnf hcap
    have hb := (enqueue_state cfg cbs st item).1
    refine ⟨?_, ?_, ?_⟩
    · constructor
      · intro he
        rcases enqueue_no_queueFull cfg cbs st item with h | h <;> rw [he] at h <;> simp at h
      · intro hsz; omega
    · intro he
      rcases enqueue_no_queueFull cfg cbs st item with h | h <;> rw [he] at h <;> simp at h
    · intro _; exact hb

/-- Witness for C4: the error-strategy theorem applied to a full capacity-3
queue, where `put 9` raises `QueueFullError` and leaves the state
unchanged. -/
theorem error_strategy_spec_witness :
    ((put (⟨3, 2, 1, OverflowStrategy.error⟩ : QueueConfig)
        (⟨none, none, none⟩ : Callbacks Nat) ⟨[5, 6, 7], 3, true⟩ 9).error =
        some QueueError.queueFull ↔
      (⟨[5, 6, 7], 3, true⟩ : QueueState Nat).size =
        (⟨3, 2, 1, OverflowStrategy.error⟩ : QueueConfig).capacity) ∧
    ((put (⟨3, 2, 1, OverflowStrategy.error⟩ : QueueConfig)
        (⟨none, none, none⟩ : Callbacks Nat) ⟨[5, 6, 7], 3, true⟩ 9).error =
        some QueueError.queueFull →
      (put (⟨3, 2, 1, OverflowStrategy.error⟩ : QueueConfig)
          (⟨none, none, none⟩ : Callbacks Nat) ⟨[5, 6, 7], 3, true⟩ 9).state =
          ⟨[5, 6, 7], 3, true⟩ ∧
        (put (⟨3, 2, 1, OverflowStrategy.error⟩ : QueueConfig)
          (⟨none, none, none⟩ : Callbacks Nat) ⟨[5, 6, 7], 3, true⟩ 9).signals = []) ∧
    ((put (⟨3, 2, 1, OverflowStrategy.error⟩ : QueueConfig)
        (⟨none, none, none⟩ : Callbacks Nat) ⟨[5, 6, 7], 3, true⟩ 9).error ≠
        some QueueError.queueFull →
      (put (⟨3, 2, 1, OverflowStrategy.error⟩ : QueueConfig)
          (⟨none, none, none⟩ : Callbacks Nat) ⟨[5, 6, 7], 3, true⟩ 9).state.buf =
        [5, 6, 7] ++ [9]) :=
  error_strategy_spec ⟨3, 2, 1, OverflowStrategy.error⟩ ⟨none, none, none⟩
    ⟨[5, 6, 7], 3, true⟩ 9 rfl (by decide) (by decide) (by decide)

/-- Claim C5 counterexample: on a capacity-3 queue with high watermark 2
whose `on_high` callback raises, `put`ting a second item makes the
exception propagate out of `put` to the caller (the claim asserts callback
exceptions never propagate). -/
theorem callback_exception_counterexample :
    (put (⟨3, 2, 1, OverflowStrategy.block⟩ : QueueConfig)
        (⟨some CbOutcome.raise, none, none⟩ : Callbacks Nat)
        ⟨[0], 1, false⟩ 1).error = some QueueError.callbackError := by
  decide

/-- Claim C5 (amended): an exception raised by `on_high`, `on_low`, or the
drop callback propagates out of `put`/`get`.  For `on_high`/`on_low` the
queue state and the recorded invocations are nevertheless exactly those of
the run whose callbacks return normally, and `put`/`get` raises a callback
error precisely when the raising callback is invoked.  An exception from
the drop callback instead aborts `put` after the head was evicted: the new
item is not enqueued. -/
theorem callback_exception_semantics (cfg : QueueConfig) (cbs : Callbacks T)
    (st : QueueState T) (item : T) :
    (dropNeverRaises cbs →
      ((put cfg cbs st item).state = (put cfg cbs.okify st item).state ∧
       (put cfg cbs st item).signals = (put cfg cbs.okify st item).signals ∧
       ((put cfg cbs st item).error = some QueueError.callbackError ↔
         (cbs.onHigh = some CbOutcome.raise ∧
           HL.high ∈ hlTrace (put cfg cbs st item).signals)))) ∧
    ((get cfg cbs st).state = (get cfg cbs.okify st).state ∧
     (get cfg cbs st).signals = (get cfg cbs.okify st).signals ∧
     ((get cfg cbs st).error = some QueueError.callbackError ↔
       (cbs.onLow = some CbOutcome.raise ∧
         HL.low ∈ hlTrace (get cfg cbs st).signals))) ∧
    (∀ f oldest rest, cfg.overflow = OverflowStrategy.dropOldest →
      cbs.dropCb = some f → st.buf = oldest :: rest → qFull cfg st →
      f oldest = CbOutcome.raise →
      (put cfg cbs st item).state = { st with buf := rest, size := st.size - 1 } ∧
      (put cfg cbs st item).signals = [Signal.drop oldest] ∧
      (put cfg cbs st item).error = some QueueError.callbackError) := by
  refine ⟨?_, ?_, ?_⟩
  · intro hdrop
    obtain ⟨hs, hsig, herr⟩ := put_okify_spec cfg cbs st item hdrop
    exact ⟨hs.symm, hsig.symm, herr⟩
  · obtain ⟨hs, hsig, herr⟩ := get_okify_spec cfg cbs st
    exact ⟨hs.symm, hsig.symm, herr⟩
  · intro f oldest rest hov hd hb hfull hfo
    simp [put, hov, if_pos hfull, hb, hd, hfo]

/-- Witness for C5 (amended): the theorem applied to a concrete queue whose
`on_high` callback raises; the raising run and the normally returning run
leave the same state. -/
theorem callback_exception_semantics_witness :
    (put (⟨3, 2, 1, OverflowStrategy.block⟩ : QueueConfig)
        (⟨some CbOutcome.raise, some CbOutcome.raise, none⟩ : Callbacks Nat)
        ⟨[0], 1, false⟩ 1).state =
      (put (⟨3, 2, 1, OverflowStrategy.block⟩ : QueueConfig)
        (⟨some CbOutcome.raise, some CbOutcome.raise,
          none⟩ : Callbacks Nat).okify ⟨[0], 1, false⟩ 1).state ∧
    (put (⟨3, 2, 1, OverflowStrategy.block⟩ : QueueConfig)
        (⟨some CbOutcome.raise, some CbOutcome.raise, none⟩ : Callbacks Nat)
        ⟨[0], 1, false⟩ 1).signals =
      (put (⟨3, 2, 1, OverflowStrategy.block⟩ : QueueConfig)
        (⟨some CbOutcome.raise, some CbOutcome.raise,
          none⟩ : Callbacks Nat).okify ⟨[0], 1, false⟩ 1).signals ∧
    ((put (⟨3, 2, 1, OverflowStrategy.block⟩ : QueueConfig)
        (⟨some CbOutcome.raise, some CbOutcome.raise, none⟩ : Callbacks Nat)
        ⟨[0], 1, false⟩ 1).error = some QueueError.callbackError ↔
      ((⟨some CbOutcome.raise, some CbOutcome.raise,
          none⟩ : Callbacks Nat).onHigh = some CbOutcome.raise ∧
        HL.high ∈ hlTrace (put (⟨3, 2, 1, OverflowStrategy.block⟩ : QueueConfig)
          (⟨some CbOutcome.raise, some CbOutcome.raise, none⟩ : Callbacks Nat)
          ⟨[0], 1, false⟩ 1).signals)) :=
  (callback_exception_semantics (⟨3, 2, 1, OverflowStrategy.block⟩ : QueueConfig)
    (⟨some CbOutcome.raise, some CbOutcome.raise, none⟩ : Callbacks Nat)
    ⟨[0], 1, false⟩ 1).1 (fun _ hf => nomatch hf)

/-- Claim C6 counterexample: constructing a queue with watermarks violating
the invariant (`low_watermark = 3 > high_watermark = 2`) succeeds and
yields a usable configuration, instead of failing as the claim states. -/
theorem construction_validation_counterexample :
    (initQueue 5 (some 2) (some 3) OverflowStrategy.block).toOption =
      some ⟨5, 2, 3, OverflowStrategy.block⟩ ∧ ¬ ((3 : Int) ≤ 2) :=
  ⟨rfl, by decide⟩

/-- Claim C6 (amended): `BoundedQueue.__init__` validates only the
capacity: construction fails (with `ValueError`) exactly when
`capacity ≤ 0`, and succeeds for every positive capacity regardless of the
watermark values — the watermark invariant is not checked by the
constructor. -/
theorem construction_validation (c : Int) (hw lw : Option Int)
    (s : OverflowStrategy) :
    ((initQueue c hw lw s).toOption.isSome = true ↔ 0 < c) ∧
    (initQueue c hw lw s = Except.error InitError.valueError ↔ c ≤ 0) := by
  by_cases h : c ≤ 0
  · rw [initQueue, if_pos h]
    constructor
    · simp [Except.toOption]; omega
    · simp [h]
  · rw [initQueue, if_neg h]
    constructor
    · simp [Except.toOption]; omega
    · simp; omega

/-- Claim C7 counterexample: for capacity 1 the default low watermark is
`int(0.5 * 1) = 0`, which violates the claimed invariant
`0 < low_watermark`. -/
theorem watermark_defaults_counterexample :
    initQueue 1 none none OverflowStrategy.block =
      Except.ok ⟨1, 1, 0, OverflowStrategy.block⟩ ∧ ¬ ((0 : Int) < 0) :=
  ⟨rfl, by decide⟩

/-- Claim C7 (amended): for every capacity > 0, a queue constructed without
explicit watermarks gets `high = max(1, ⌊0.8·capacity⌋)` and
`low = ⌊0.5·capacity⌋`; these defaults satisfy
`0 ≤ low ≤ high ≤ capacity`, and `0 < low` holds exactly when
`capacity ≥ 2` (so the claimed invariant `0 < low` fails only at
capacity 1). -/
theorem watermark_defaults (c : Int) (s : OverflowStrategy) (hc : 0 < c) :
    initQueue c none none s =
      Except.ok ⟨c, defaultHighWm c, defaultLowWm c, s⟩ ∧
    0 ≤ defaultLowWm c ∧ defaultLowWm c ≤ defaultHighWm c ∧
    defaultHighWm c ≤ c ∧ (0 < defaultLowWm c ↔ 2 ≤ c) := by
  refine ⟨?_, ?_, ?_, ?_, ?_⟩
  · unfold initQueue
    rw [if_neg (by omega)]
    rfl
  · unfold defaultLowWm; omega
  · unfold defaultLowWm defaultHighWm
    rcases le_total 1 (4 * c / 5) with h | h
    · rw [max_eq_right h]; omega
    · rw [max_eq_left h]; omega
  · unfold defaultHighWm
    rcases le_total 1 (4 * c / 5) with h | h
    · rw [max_eq_right h]; omega
    · rw [max_eq_left h]; omega
  · unfold defaultLowWm; omega

/-- Witness for C7 (amended): the defaults theorem applied at capacity 5,
giving high watermark 4 and low watermark 2. -/
theorem watermark_defaults_witness :
    initQueue 5 none none OverflowStrategy.block =
      Except.ok ⟨5, defaultHighWm 5, defaultLowWm 5, OverflowStrategy.block⟩ ∧
    0 ≤ defaultLowWm 5 ∧ defaultLowWm 5 ≤ defaultHighWm 5 ∧
    defaultHighWm 5 ≤ 5 ∧ (0 < defaultLowWm 5 ↔ 2 ≤ (5 : Int)) :=
  watermark_defaults 5 OverflowStrategy.block (by decide)

/-- Claim C8 counterexample: the `FeedbackEvent` dataclass has neither a
`ts` field nor a `source` field, contrary to the claimed shape. -/
theorem feedback_event_fields_counterexample :
    ¬ ("ts" ∈ feedbackEventFields) ∧ ¬ ("source" ∈ feedbackEventFields) := by
  decide

/-- Claim C8 (amended): a `FeedbackEvent` carries exactly `coordinator_id`,
`queue_size`, `capacity`, `level` and the optional `reason` (no `ts`, no
`source`), and its level is exactly one of the three variants whose wire
values are the lowercase strings ok/soft/hard (pairwise distinct). -/
theorem feedback_event_shape :
    feedbackEventFields =
      ["coordinator_id", "queue_size", "capacity", "level", "reason"] ∧
    (∀ e : FeedbackEvent,
      e = ⟨e.coordinator_id, e.queue_size, e.capacity, e.level, e.reason⟩) ∧
    (∀ l : BackpressureLevel,
      l.wireValue = "ok" ∨ l.wireValue = "soft" ∨ l.wireValue = "hard") ∧
    BackpressureLevel.ok.wireValue = "ok" ∧
    BackpressureLevel.soft.wireValue = "soft" ∧
    BackpressureLevel.hard.wireValue = "hard" ∧
    (∀ l l' : BackpressureLevel, l.wireValue = l'.wireValue → l = l') := by
  refine ⟨rfl, ?_, ?_, rfl, rfl, rfl, ?_⟩
  · intro e; rfl
  · intro l; cases l
    · exact Or.inl rfl
    · exact Or.inr (Or.inl rfl)
    · exact Or.inr (Or.inr rfl)
  · intro l l' h
    cases l <;> cases l' <;> revert h <;> decide

/-- Witness for C8 (amended): the wire-value injectivity applied at the
`soft` level. -/
theorem feedback_event_shape_witness :
    BackpressureLevel.soft = BackpressureLevel.soft :=
  feedback_event_shape.2.2.2.2.2.2 BackpressureLevel.soft BackpressureLevel.soft
    rfl

/-- `publishCalls` runs every subscriber in list order, recording each
outcome, and never produces an error. -/
theorem publishCalls_ok (behavior : Nat → FeedbackEvent → CbOutcome)
    (e : FeedbackEvent) :
    ∀ subs : List Nat,
      publishCalls behavior e subs = Except.ok (subs.map fun s => behavior s e) := by
  intro subs
  induction subs with
  | nil => rfl
  | cons s rest ih => simp [publishCalls, ih]

/-- Claim C9: `FeedbackBus.publish` invokes each subscriber of the snapshot
exactly once, in registration order, with the published event; a raising
subscriber is caught (its outcome recorded) and every remaining subscriber
is still invoked; and `publish` itself never raises — it always returns
normally with the full outcome list `subs.map (fun s => behavior s e)`. -/
theorem publish_spec (subs : List Nat) (behavior : Nat → FeedbackEvent → CbOutcome)
    (e : FeedbackEvent) :
    publish subs behavior e = Except.ok (subs.map fun s => behavior s e) := by
  unfold publish
  split
  · rename_i h
    rw [List.isEmpty_iff] at h
    rw [h]
    rfl
  · exact publishCalls_ok behavior e subs

/-- Claim C10: `FeedbackEvent.utilization` is total — it never raises —
and equals `queue_size / capacity` when `capacity > 0` and `0.0` when
`capacity ≤ 0`. -/
theorem utilization_total (e : FeedbackEvent) :
    e.utilization.isSome = true ∧
    (0 < e.capacity →
      e.utilization = some ((e.queue_size : Rat) / (e.capacity : Rat))) ∧
    (e.capacity ≤ 0 → e.utilization = some (0 : Rat)) := by
  by_cases h : 0 < e.capacity
  · have hne : e.capacity ≠ 0 := by omega
    refine ⟨?_, ?_, ?_⟩
    · simp [FeedbackEvent.utilization, pyDiv, h, hne]
    · intro _; simp [FeedbackEvent.utilization, pyDiv, h, hne]
    · intro hc; omega
  · refine ⟨?_, ?_, ?_⟩
    · simp [FeedbackEvent.utilization, pyDiv, h]
    · intro hc; omega
    · intro _; simp [FeedbackEvent.utilization, pyDiv, h]

/-- Witness for C10: utilization of a concrete event with queue_size 3 and
capacity 4 is 3/4, and reading it succeeds. -/
theorem utilization_total_witness :
    (FeedbackEvent.utilization
      ⟨"store", 3, 4, BackpressureLevel.soft, none⟩).isSome = true ∧
    FeedbackEvent.utilization ⟨"store", 3, 4, BackpressureLevel.soft, none⟩ =
      some (((3 : Int) : Rat) / ((4 : Int) : Rat)) :=
  ⟨(utilization_total ⟨"store", 3, 4, BackpressureLevel.soft, none⟩).1,
    (utilization_total ⟨"store", 3, 4, BackpressureLevel.soft, none⟩).2.1
      (by decide)⟩

end MarketDataStore
